import Mathlib

/-!
# Alice UI: the streaming ingest loop and the status poll of `App.jsx`

A shallow embedding of `fetchStatus` and `handleSubmit` from
`src/alice-ui/src/App.jsx`, and the properties of the specification settled
against it.

Modelling conventions.

* JavaScript text is `Str`, a list of characters.  A chunk is the text that
  `decoder.decode(value)` returns for one `reader.read()`.
* JavaScript values are `JVal`.  A number keeps the text of its literal; its
  rendering by string concatenation is a component of the platform record `Js`.
* `JSON.parse` is a component of `Js` as well: `none` is a thrown `SyntaxError`.
  Every general theorem holds for every `Js`; the concrete evaluations use
  `refJs`, whose parser `parseJSON` follows the JSON grammar.
* React state is an explicit record `State`, and a state setter takes effect when
  it is called; a handler reads the state in force when it is called.
  `console.error` calls are appended to the `console` field; the requests a
  handler issues are returned as a list of `Effect`.
* An `await` is the boundary between the steps of a handler: `handleSubmitStart`
  is the part of `handleSubmit` before its first `await`, `processChunk` one
  iteration of its read loop, `handleSubmitFinally` its `finally` block, and
  `handleSubmit` the whole run against a given response.
-/

set_option autoImplicit false

namespace Alice

/-- JavaScript text. -/
abbrev Str := List Char

/-! ## JavaScript values -/

mutual
/-- The JavaScript values the program can observe: the results of `JSON.parse`
and `undefined`, the result of reading an absent property. -/
inductive JVal where
  | undefined : JVal
  | null : JVal
  | bool (b : Bool) : JVal
  | num (lit : Str) : JVal
  | str (s : Str) : JVal
  | arr (xs : JArr) : JVal
  | obj (ms : JObj) : JVal
/-- The elements of an array, in order. -/
inductive JArr where
  | nil : JArr
  | cons (v : JVal) (rest : JArr) : JArr
/-- The members of an object, in the order of the text. -/
inductive JObj where
  | nil : JObj
  | cons (k : Str) (v : JVal) (rest : JObj) : JObj
end

deriving instance DecidableEq for JVal, JArr, JObj

/-- The platform functions the program calls and does not define. -/
structure Js where
  /-- The function `JSON.parse`; `none` is a thrown `SyntaxError`. -/
  parse : Str → Option JVal
  /-- The text of a number in a string concatenation, from its literal. -/
  numToString : Str → Str

/-- The own member `k` of an object; a later duplicate key overrides an earlier one. -/
def JObj.find? : JObj → Str → Option JVal
  | .nil, _ => none
  | .cons k v rest, key =>
    match rest.find? key with
    | some w => some w
    | none => if k = key then some v else none

/-- Property read `v.name` on a value that is neither `null` nor `undefined`, for the
names the program reads (`type`, `delta`, `content`, `skills`, `files`), none of
which a builtin prototype defines: an own member of an object, else `undefined`. -/
def getProp (v : JVal) (name : Str) : JVal :=
  match v with
  | .obj ms => (ms.find? name).getD .undefined
  | _ => .undefined

/-- Property read `v.name`; `none` is the `TypeError` of reading a property of
`null` or `undefined`. -/
def member (v : JVal) (name : Str) : Option JVal :=
  match v with
  | .undefined => none
  | .null => none
  | w => some (getProp w name)

/-- Strict equality `v === s` with a string literal `s`. -/
def strictEqStr (v : JVal) (s : Str) : Bool :=
  match v with
  | .str t => t == s
  | _ => false

mutual
/-- The text that `'' + v` gives (`ToPrimitive` followed by `ToString`); `none` is
a thrown `TypeError`, which happens for an object whose own member `toString`
hides `Object.prototype.toString`. -/
def toStr (js : Js) : JVal → Option Str
  | .undefined => some "undefined".data
  | .null => some "null".data
  | .bool true => some "true".data
  | .bool false => some "false".data
  | .num lit => some (js.numToString lit)
  | .str s => some s
  | .arr xs => joinArr js xs
  | .obj ms =>
    match ms.find? "toString".data with
    | some _ => none
    | none => some "[object Object]".data
/-- The text of one array element inside `Array.prototype.join`. -/
def elemStr (js : Js) : JVal → Option Str
  | .undefined => some []
  | .null => some []
  | .bool true => some "true".data
  | .bool false => some "false".data
  | .num lit => some (js.numToString lit)
  | .str s => some s
  | .arr xs => joinArr js xs
  | .obj ms =>
    match ms.find? "toString".data with
    | some _ => none
    | none => some "[object Object]".data
/-- The result of `Array.prototype.join` with the separator `,`. -/
def joinArr (js : Js) : JArr → Option Str
  | .nil => some []
  | .cons v .nil => elemStr js v
  | .cons v (.cons w rest) =>
    match elemStr js v, joinArr js (.cons w rest) with
    | some a, some b => some (a ++ ',' :: b)
    | _, _ => none
end

/-! ## A reference `JSON.parse` -/

/-- The four whitespace characters of the JSON grammar. -/
def isJsonWs (c : Char) : Bool :=
  c == ' ' || c == '\t' || c == '\n' || c == '\r'

/-- Drops leading JSON whitespace. -/
def skipWs : Str → Str
  | [] => []
  | c :: cs => if isJsonWs c then skipWs cs else c :: cs

/-- The value of a hexadecimal digit. -/
def hexDigit? (c : Char) : Option Nat :=
  if '0' ≤ c ∧ c ≤ '9' then some (c.toNat - '0'.toNat)
  else if 'a' ≤ c ∧ c ≤ 'f' then some (c.toNat - 'a'.toNat + 10)
  else if 'A' ≤ c ∧ c ≤ 'F' then some (c.toNat - 'A'.toNat + 10)
  else none

/-- Four hexadecimal digits, as the number they write. -/
def hex4? : Str → Option (Nat × Str)
  | a :: b :: c :: d :: rest =>
    match hexDigit? a, hexDigit? b, hexDigit? c, hexDigit? d with
    | some x, some y, some z, some w => some (((x * 16 + y) * 16 + z) * 16 + w, rest)
    | _, _, _, _ => none
  | _ => none

/-- The character of a single-letter escape. -/
def simpleEscape? (e : Char) : Option Char :=
  if e = '"' then some '"'
  else if e = '\\' then some '\\'
  else if e = '/' then some '/'
  else if e = 'b' then some (Char.ofNat 8)
  else if e = 'f' then some (Char.ofNat 12)
  else if e = 'n' then some '\n'
  else if e = 'r' then some '\r'
  else if e = 't' then some '\t'
  else none

/-- The characters of a `\u` escape whose four digits gave `hi`, and the text left.
A surrogate pair is one character; a lone surrogate, which `Str` cannot hold, is
rendered as U+FFFD. -/
def unicodeEscape (hi : Nat) (rest : Str) : Char × Str :=
  if 0xD800 ≤ hi ∧ hi < 0xDC00 then
    match rest with
    | '\\' :: 'u' :: r =>
      match hex4? r with
      | some (lo, r2) =>
        if 0xDC00 ≤ lo ∧ lo < 0xE000 then
          (Char.ofNat (0x10000 + (hi - 0xD800) * 0x400 + (lo - 0xDC00)), r2)
        else (Char.ofNat 0xFFFD, rest)
      | none => (Char.ofNat 0xFFFD, rest)
    | _ => (Char.ofNat 0xFFFD, rest)
  else if 0xDC00 ≤ hi ∧ hi < 0xE000 then (Char.ofNat 0xFFFD, rest)
  else (Char.ofNat hi, rest)

/-- The body of a string literal, after its opening quote: the string and the text
after the closing quote. -/
def parseStringBody : Nat → Str → Option (Str × Str)
  | 0, _ => none
  | _ + 1, [] => none
  | n + 1, c :: rest =>
    if c = '"' then some ([], rest)
    else if c = '\\' then
      match rest with
      | [] => none
      | e :: r =>
        if e = 'u' then
          match hex4? r with
          | none => none
          | some (hi, r1) =>
            match parseStringBody n (unicodeEscape hi r1).2 with
            | some (s, r2) => some ((unicodeEscape hi r1).1 :: s, r2)
            | none => none
        else
          match simpleEscape? e with
          | none => none
          | some ch =>
            match parseStringBody n r with
            | some (s, r2) => some (ch :: s, r2)
            | none => none
    else if c.toNat < 0x20 then none
    else
      match parseStringBody n rest with
      | some (s, r2) => some (c :: s, r2)
      | none => none

/-- The longest prefix of decimal digits, and the text left. -/
def takeDigits : Str → Str × Str
  | [] => ([], [])
  | c :: cs =>
    if c.isDigit then ((c :: (takeDigits cs).1), (takeDigits cs).2) else ([], c :: cs)

/-- The integer part of a number literal: `0`, or a nonzero digit and more digits. -/
def parseInt : Str → Option (Str × Str)
  | [] => none
  | c :: cs =>
    if c = '0' then some (['0'], cs)
    else if c.isDigit then some (c :: (takeDigits cs).1, (takeDigits cs).2)
    else none

/-- The optional fraction of a number literal. -/
def parseFrac : Str → Option (Str × Str)
  | '.' :: cs =>
    match takeDigits cs with
    | ([], _) => none
    | (ds, r) => some ('.' :: ds, r)
  | s => some ([], s)

/-- The digits of an exponent, after its sign. -/
def expDigits (pre : Str) (cs : Str) : Option (Str × Str) :=
  match takeDigits cs with
  | ([], _) => none
  | (ds, r) => some (pre ++ ds, r)

/-- The optional exponent of a number literal. -/
def parseExp : Str → Option (Str × Str)
  | [] => some ([], [])
  | e :: cs =>
    if e = 'e' ∨ e = 'E' then
      match cs with
      | '+' :: r => expDigits [e, '+'] r
      | '-' :: r => expDigits [e, '-'] r
      | r => expDigits [e] r
    else some ([], e :: cs)

/-- A number literal: its text, and the text left. -/
def parseNumber (s : Str) : Option (Str × Str) :=
  let signed : Str × Str :=
    match s with
    | '-' :: r => (['-'], r)
    | r => ([], r)
  match parseInt signed.2 with
  | none => none
  | some (i, r1) =>
    match parseFrac r1 with
    | none => none
    | some (f, r2) =>
      match parseExp r2 with
      | none => none
      | some (e, r3) => some (signed.1 ++ i ++ f ++ e, r3)

mutual
/-- One JSON value at the head of the text, and the text left. -/
def parseValue : Nat → Str → Option (JVal × Str)
  | 0, _ => none
  | n + 1, s =>
    match skipWs s with
    | '{' :: r =>
      match skipWs r with
      | '}' :: r1 => some (.obj .nil, r1)
      | r1 =>
        match parseMembers n r1 with
        | some (ms, r2) => some (.obj ms, r2)
        | none => none
    | '[' :: r =>
      match skipWs r with
      | ']' :: r1 => some (.arr .nil, r1)
      | r1 =>
        match parseElements n r1 with
        | some (xs, r2) => some (.arr xs, r2)
        | none => none
    | '"' :: r =>
      match parseStringBody n r with
      | some (t, r1) => some (.str t, r1)
      | none => none
    | 't' :: 'r' :: 'u' :: 'e' :: r => some (.bool true, r)
    | 'f' :: 'a' :: 'l' :: 's' :: 'e' :: r => some (.bool false, r)
    | 'n' :: 'u' :: 'l' :: 'l' :: r => some (.null, r)
    | r =>
      match parseNumber r with
      | some (lit, r1) => some (.num lit, r1)
      | none => none
/-- The elements of a nonempty array up to and including its `]`. -/
def parseElements : Nat → Str → Option (JArr × Str)
  | 0, _ => none
  | n + 1, s =>
    match parseValue n s with
    | none => none
    | some (v, r) =>
      match skipWs r with
      | ',' :: r1 =>
        match parseElements n r1 with
        | some (vs, r2) => some (.cons v vs, r2)
        | none => none
      | ']' :: r1 => some (.cons v .nil, r1)
      | _ => none
/-- The members of a nonempty object up to and including its `}`. -/
def parseMembers : Nat → Str → Option (JObj × Str)
  | 0, _ => none
  | n + 1, s =>
    match skipWs s with
    | '"' :: r =>
      match parseStringBody n r with
      | none => none
      | some (k, r1) =>
        match skipWs r1 with
        | ':' :: r2 =>
          match parseValue n r2 with
          | none => none
          | some (v, r3) =>
            match skipWs r3 with
            | ',' :: r4 =>
              match parseMembers n r4 with
              | some (ms, r5) => some (.cons k v ms, r5)
              | none => none
            | '}' :: r4 => some (.cons k v .nil, r4)
            | _ => none
        | _ => none
    | _ => none
end

/-- A reference `JSON.parse`: one JSON value with whitespace around it and nothing
else.  The fuel `2 * length + 2` exceeds the depth of the nested calls. -/
def parseJSON (s : Str) : Option JVal :=
  match parseValue (2 * s.length + 2) s with
  | some (v, r) =>
    match skipWs r with
    | [] => some v
    | _ :: _ => none
  | none => none

/-- The reference platform of the concrete evaluations.  Its number rendering
returns the literal, which is what JavaScript prints for an integer literal in
canonical form below `2^53`; no text evaluated below contains a number. -/
def refJs : Js where
  parse := parseJSON
  numToString := fun lit => lit

/-! ## Text operations of the ingest loop -/

/-- The characters that `String.prototype.trim` removes: the `WhiteSpace` and
`LineTerminator` code points of ECMAScript. -/
def isJsSpace (c : Char) : Bool :=
  let n := c.toNat
  (9 ≤ n && n ≤ 13) || n == 0x20 || n == 0xA0 || n == 0x1680 ||
    (0x2000 ≤ n && n ≤ 0x200A) || n == 0x2028 || n == 0x2029 || n == 0x202F ||
    n == 0x205F || n == 0x3000 || n == 0xFEFF

/-- The method `trim`: whitespace removed at both ends. -/
def trim (s : Str) : Str :=
  ((s.dropWhile isJsSpace).reverse.dropWhile isJsSpace).reverse

/-- The test `!s.trim()`: the trimmed text is the empty string. -/
def isBlank (s : Str) : Bool :=
  (trim s).isEmpty

/-- The call `chunk.split('\n')`: the pieces between the newlines, one more than
there are newlines. -/
def split : Str → List Str
  | [] => [[]]
  | c :: cs =>
    if c = '\n' then [] :: split cs
    else
      match split cs with
      | [] => [[c]]
      | l :: ls => (c :: l) :: ls

/-! ## Messages and state -/

/-- The object `currentBotMessage`: the assistant turn under construction. -/
structure BotMessage where
  /-- The field `thinking`. -/
  thinking : Str
  /-- The field `content`. -/
  content : Str
  /-- The field `executionResults`. -/
  executionResults : List JVal
  deriving DecidableEq

/-- One element of `messages`. -/
inductive Message where
  | user (content : Str) : Message
  | bot (m : BotMessage) : Message
  deriving DecidableEq

/-- One call of `console.error`. -/
inductive LogEntry where
  | statusError : LogEntry
  | parseError (line : Str) : LogEntry
  | chatError : LogEntry
  deriving DecidableEq

/-- The React state of `App` and the console. -/
structure State where
  /-- The state `messages`. -/
  messages : List Message
  /-- The state `input`. -/
  input : Str
  /-- The state `isLoading`. -/
  isLoading : Bool
  /-- The state `tasks`. -/
  tasks : JVal
  /-- The state `skills`. -/
  skills : JVal
  /-- The state `outputs`. -/
  outputs : JVal
  /-- The calls of `console.error`, oldest first. -/
  console : List LogEntry
  deriving DecidableEq

/-- The state after the first render: the initial values of the `useState` calls. -/
def State.initial : State where
  messages := []
  input := []
  isLoading := false
  tasks := .str []
  skills := .obj .nil
  outputs := .arr .nil
  console := []

/-- A request the program issues. -/
inductive Effect where
  | chat (message : Str) : Effect
  | fetchStatus : Effect
  deriving DecidableEq

/-! ## `fetchStatus` -/

/-- The outcome of the three requests of one poll: `none` is a rejected request,
`some d` a response whose `data` is `d`. -/
structure Poll where
  /-- The outcome of `axios.get('/api/tasks')`. -/
  taskRes : Option JVal
  /-- The outcome of `axios.get('/api/skills')`. -/
  skillRes : Option JVal
  /-- The outcome of `axios.get('/api/outputs')`. -/
  outputRes : Option JVal

/-- The catch block of `fetchStatus`. -/
def fetchStatusCatch (s : State) : State :=
  { s with console := s.console ++ [.statusError] }

/-- The function `fetchStatus`, on the outcome of its three requests.
`Promise.all` rejects when any request does; the three setters run in order, and
a property read on a `null` body throws into the same catch block. -/
def fetchStatus (s : State) (p : Poll) : State :=
  match p.taskRes, p.skillRes, p.outputRes with
  | some t, some k, some o =>
    match member t "content".data with
    | none => fetchStatusCatch s
    | some tv =>
      let s1 := { s with tasks := tv }
      match member k "skills".data with
      | none => fetchStatusCatch s1
      | some kv =>
        let s2 := { s1 with skills := kv }
        match member o "files".data with
        | none => fetchStatusCatch s2
        | some ov => { s2 with outputs := ov }
  | _, _, _ => fetchStatusCatch s

/-! ## `handleSubmit` -/

/-- A running `handleSubmit`: the state and its local `currentBotMessage`. -/
structure Flight where
  /-- The React state. -/
  st : State
  /-- The local variable `currentBotMessage`. -/
  cur : BotMessage
  deriving DecidableEq

/-- The assignment `newMessages[newMessages.length - 1] = m` on a copy of `prev`;
on an empty array it adds no element. -/
def setLast (prev : List Message) (m : Message) : List Message :=
  prev.set (prev.length - 1) m

/-- The three branches on `data.type`, applied to `currentBotMessage`; `none` is a
thrown `TypeError`, raised before anything is assigned. -/
def applyData (js : Js) (cur : BotMessage) (data : JVal) : Option BotMessage :=
  match member data "type".data with
  | none => none
  | some ty =>
    if strictEqStr ty "thinking".data then
      match toStr js (getProp data "delta".data) with
      | some d => some { cur with thinking := cur.thinking ++ d }
      | none => none
    else if strictEqStr ty "content".data then
      match toStr js (getProp data "delta".data) with
      | some d => some { cur with content := cur.content ++ d }
      | none => none
    else if strictEqStr ty "execution_result".data then
      some { cur with executionResults := cur.executionResults ++ [getProp data "content".data] }
    else some cur

/-- The catch block of the line loop. -/
def parseCatch (f : Flight) (line : Str) : Flight :=
  { f with st := { f.st with console := f.st.console ++ [.parseError line] } }

/-- One iteration of `for (const line of lines)`. -/
def processLine (js : Js) (f : Flight) (line : Str) : Flight :=
  if isBlank line then f
  else
    match js.parse line with
    | none => parseCatch f line
    | some data =>
      match applyData js f.cur data with
      | none => parseCatch f line
      | some cur =>
        { st := { f.st with messages := setLast f.st.messages (.bot cur) }, cur := cur }

/-- One iteration of the read loop, on the decoded text of the chunk. -/
def processChunk (js : Js) (f : Flight) (chunk : Str) : Flight :=
  (split chunk).foldl (processLine js) f

/-- The read loop over the chunks that arrive. -/
def ingest (js : Js) (f : Flight) (chunks : List Str) : Flight :=
  chunks.foldl (processChunk js) f

/-- The initial value of `currentBotMessage`. -/
def BotMessage.fresh : BotMessage where
  thinking := []
  content := []
  executionResults := []

/-- The guard of `handleSubmit`: `!input.trim() || isLoading`. -/
def rejects (s : State) : Bool :=
  isBlank s.input || s.isLoading

/-- The part of `handleSubmit` before its first `await`: the guard, the two
messages appended, the input cleared, the flag raised, the request issued.
`none` for the flight is the early `return`. -/
def handleSubmitStart (s : State) : Option Flight × List Effect :=
  if rejects s then (none, [])
  else
    let userMessage := Message.user s.input
    let s1 : State :=
      { s with messages := s.messages ++ [userMessage], input := [], isLoading := true }
    let currentBotMessage := BotMessage.fresh
    let s2 : State := { s1 with messages := s1.messages ++ [.bot currentBotMessage] }
    (some { st := s2, cur := currentBotMessage }, [.chat s.input])

/-- The state that `handleSubmitStart` leaves. -/
def stateAfterStart (s : State) : State :=
  match (handleSubmitStart s).1 with
  | some f => f.st
  | none => s

/-- How the response stream behaves: the chunks the reads deliver, and whether
the request or the read after them raises instead of reporting `done`. -/
structure Response where
  /-- The decoded chunks, in arrival order. -/
  chunks : List Str
  /-- Whether the stream ends with an exception. -/
  fails : Bool

/-- The catch block of `handleSubmit`. -/
def chatCatch (s : State) : State :=
  { s with console := s.console ++ [.chatError] }

/-- The finally block of `handleSubmit`. -/
def handleSubmitFinally (s : State) : State × List Effect :=
  ({ s with isLoading := false }, [.fetchStatus])

/-- The function `handleSubmit`, run to completion against a response. -/
def handleSubmit (js : Js) (s : State) (r : Response) : State × List Effect :=
  match handleSubmitStart s with
  | (none, effs) => (s, effs)
  | (some f, effs) =>
    let f1 := ingest js f r.chunks
    let s1 := if r.fails then chatCatch f1.st else f1.st
    ((handleSubmitFinally s1).1, effs ++ (handleSubmitFinally s1).2)

/-! ## Observations used to state the properties -/

/-- The lines of one chunk that reach `JSON.parse`. -/
def linesToParser (chunk : Str) : List Str :=
  (split chunk).filter (fun l => !isBlank l)

/-- The lines of a stream that reach `JSON.parse`, in order. -/
def parsedLines (chunks : List Str) : List Str :=
  (chunks.map linesToParser).flatten

/-- The flight that starts on state `s` with a fresh assistant turn. -/
def Flight.start (s : State) : Flight where
  st := s
  cur := BotMessage.fresh

/-- The assistant turn that a stream of chunks accumulates. -/
def accumulate (js : Js) (chunks : List Str) : BotMessage :=
  (ingest js (Flight.start State.initial) chunks).cur

/-- The three kinds of event line of the wire contract, with the string each carries. -/
inductive Event where
  | thinking (delta : Str) : Event
  | content (delta : Str) : Event
  | executionResult (value : Str) : Event
  deriving DecidableEq

/-- The parsed value `v` is the event `e`: its `type` is the string of the kind, and
its `delta` (for `execution_result`, its `content`) is the string carried. -/
def Encodes (v : JVal) : Event → Prop
  | .thinking d =>
    member v "type".data = some (.str "thinking".data) ∧ getProp v "delta".data = .str d
  | .content d =>
    member v "type".data = some (.str "content".data) ∧ getProp v "delta".data = .str d
  | .executionResult x =>
    member v "type".data = some (.str "execution_result".data) ∧
      getProp v "content".data = .str x

/-- The line `l` is a well-formed event line for `e`: one line of text, not blank,
that parses to a value which is the event `e`. -/
def WellFormed (js : Js) (l : Str) (e : Event) : Prop :=
  '\n' ∉ l ∧ isBlank l = false ∧ ∃ v, js.parse l = some v ∧ Encodes v e

/-- The text of a chunk that delivers the given lines whole, each followed by its
terminator. -/
def renderLines (ls : List Str) : Str :=
  (ls.map (fun l => l ++ ['\n'])).flatten

/-- The deltas of the `thinking` events, in order. -/
def thinkingDeltas : List Event → List Str
  | [] => []
  | .thinking d :: es => d :: thinkingDeltas es
  | _ :: es => thinkingDeltas es

/-- The deltas of the `content` events, in order. -/
def contentDeltas : List Event → List Str
  | [] => []
  | .content d :: es => d :: contentDeltas es
  | _ :: es => contentDeltas es

/-- The values of the `execution_result` events, in order. -/
def executionValues : List Event → List Str
  | [] => []
  | .executionResult x :: es => x :: executionValues es
  | _ :: es => executionValues es

/-- No cut of a partition falls inside a line: at every cut the chunk before it is
empty or ends with a newline, or the text after it is empty or starts with one. -/
def CutsAtLineEnds : List Str → Prop
  | [] => True
  | c :: rest =>
    (c = [] ∨ (∃ a, c = a ++ ['\n']) ∨ rest.flatten = [] ∨ ∃ b, rest.flatten = '\n' :: b) ∧
      CutsAtLineEnds rest

/-! ## The scenarios of the specification -/

/-- Scenario 1, first line. -/
def line1 : Str := "\x7b\"type\":\"thinking\",\"delta\":\"ana\"\x7d".data
/-- Scenario 1, second line. -/
def line2 : Str := "\x7b\"type\":\"thinking\",\"delta\":\"lyzing\"\x7d".data
/-- Scenario 1, third line. -/
def line3 : Str := "\x7b\"type\":\"content\",\"delta\":\"Hi\"\x7d".data
/-- Scenario 1, fourth line. -/
def line4 : Str := "\x7b\"type\":\"execution_result\",\"content\":\"ok\"\x7d".data
/-- Scenario 1: the four lines, each terminated. -/
def stream1 : Str := renderLines [line1, line2, line3, line4]
/-- Scenario 2, chunk A: it ends in the middle of the third line. -/
def chunkA : Str := renderLines [line1, line2] ++ "\x7b\"type\":\"conte".data
/-- Scenario 2, chunk B: the rest of the third line, and the fourth. -/
def chunkB : Str := "nt\",\"delta\":\"Hi\"\x7d\n".data ++ renderLines [line4]
/-- Scenario 3, the line that is not JSON. -/
def badLine : Str := "not-json-at-all".data

/-- A stream that ends without a terminator: line 1 terminated, then line 3. -/
def unterminated3 : Str := renderLines [line1] ++ line3
/-- Scenario 3: a `content` line, the line that is not JSON, an `execution_result` line. -/
def stream3 : Str := renderLines [line3, badLine, line4]
/-- Scenario 4: the state in which the user has typed a message and nothing is in flight. -/
def typed : State := { State.initial with input := "hello".data }
/-- Scenario 5, the snapshot before the poll. -/
def prior5 : State :=
  { State.initial with
    tasks := .str "old tasks".data
    skills := .obj (.cons "old".data (.str "skill".data) .nil)
    outputs := .arr (.cons (.str "old.txt".data) .nil) }
/-- Scenario 5, the skills that the poll fetches. -/
def newSkills : JVal := .obj (.cons "new".data (.str "skill".data) .nil)
/-- Scenario 5, the outputs that the poll fetches. -/
def newOutputs : JVal := .arr (.cons (.str "new.txt".data) .nil)
/-- Scenario 5: the tasks request fails, the other two succeed. -/
def poll5 : Poll where
  taskRes := none
  skillRes := some (.obj (.cons "skills".data newSkills .nil))
  outputRes := some (.obj (.cons "files".data newOutputs .nil))
/-- A poll in which the three requests succeed. -/
def pollAll : Poll where
  taskRes := some (.obj (.cons "content".data (.str "new tasks".data) .nil))
  skillRes := some (.obj (.cons "skills".data newSkills .nil))
  outputRes := some (.obj (.cons "files".data newOutputs .nil))
/-- A `thinking` line without a `delta`. -/
def thinkingNoDelta : Str := "\x7b\"type\":\"thinking\"\x7d".data
/-- An `execution_result` line without a `content`. -/
def resultNoContent : Str := "\x7b\"type\":\"execution_result\"\x7d".data
/-- A line whose `type` is not one of the three. -/
def pingLine : Str := "\x7b\"type\":\"ping\",\"delta\":\"x\"\x7d".data

/-- A `content` line with delta `x`, without its terminator. -/
def contentX : Str := "\x7b\"type\":\"content\",\"delta\":\"x\"\x7d".data
/-- A `content` line with delta `y`, without its terminator. -/
def contentY : Str := "\x7b\"type\":\"content\",\"delta\":\"y\"\x7d".data
/-- One line that is not JSON: two objects with nothing between them. -/
def twoObjects : Str := contentX ++ contentY
/-- The flight that an accepted submission on `typed` starts. -/
def typedFlight : Flight where
  st := { typed with
    messages := [.user "hello".data, .bot BotMessage.fresh], input := [], isLoading := true }
  cur := BotMessage.fresh

/-- The effect of one event on a turn, in the words of the specification: a delta is
appended to its text, an execution result is appended as one element. -/
def applyEvent (cur : BotMessage) : Event → BotMessage
  | .thinking d => { cur with thinking := cur.thinking ++ d }
  | .content d => { cur with content := cur.content ++ d }
  | .executionResult x => { cur with executionResults := cur.executionResults ++ [.str x] }

/-- Scenario 1 as two chunks of whole lines, each line with the event it writes. -/
def scenario1 : List (List (Str × Event)) :=
  [[(line1, .thinking "ana".data), (line2, .thinking "lyzing".data)],
    [(line3, .content "Hi".data), (line4, .executionResult "ok".data)]]

/-! ## Lemmas on `split` and the line loop -/

theorem split_ne_nil (s : Str) : split s ≠ [] := by
  cases s with
  | nil => simp [split]
  | cons c cs =>
    unfold split
    split_ifs
    · simp
    · cases split cs <;> simp

/-- Splitting around a newline: the pieces before it, then the pieces after it. -/
theorem split_append_newline (a b : Str) :
    split (a ++ '\n' :: b) = split a ++ split b := by
  induction a with
  | nil => simp [split]
  | cons c a ih =>
    by_cases hc : c = '\n'
    · simp [split, hc, ih]
    · have hne := split_ne_nil a
      cases hs : split a with
      | nil => exact absurd hs hne
      | cons l ls => simp [split, hc, ih, hs]

/-- A text without a newline is one piece. -/
theorem split_of_not_mem (l : Str) (h : '\n' ∉ l) : split l = [l] := by
  induction l with
  | nil => rfl
  | cons c l ih =>
    have hc : c ≠ '\n' := fun e => h (by simp [e])
    have hl : '\n' ∉ l := fun m => h (List.mem_cons_of_mem _ m)
    simp [split, hc, ih hl]

theorem isBlank_nil : isBlank [] = true := rfl

theorem processLine_nil (js : Js) (f : Flight) : processLine js f [] = f := by
  simp [processLine, isBlank_nil]

theorem processChunk_nil (js : Js) (f : Flight) : processChunk js f [] = f := by
  simp [processChunk, split, processLine_nil]

/-- A chunk with a newline in it is processed as the text before the newline and
then the text after it. -/
theorem processChunk_append_newline (js : Js) (f : Flight) (a b : Str) :
    processChunk js f (a ++ '\n' :: b) = processChunk js (processChunk js f a) b := by
  simp [processChunk, split_append_newline, List.foldl_append]

theorem ingest_cons (js : Js) (f : Flight) (c : Str) (cs : List Str) :
    ingest js f (c :: cs) = ingest js (processChunk js f c) cs := rfl

theorem ingest_append (js : Js) (f : Flight) (cs ds : List Str) :
    ingest js f (cs ++ ds) = ingest js (ingest js f cs) ds := by
  simp [ingest, List.foldl_append]

theorem linesToParser_nil : linesToParser [] = [] := by
  simp [linesToParser, split, isBlank_nil]

theorem linesToParser_append_newline (a b : Str) :
    linesToParser (a ++ '\n' :: b) = linesToParser a ++ linesToParser b := by
  simp [linesToParser, split_append_newline]

theorem parsedLines_cons (c : Str) (cs : List Str) :
    parsedLines (c :: cs) = linesToParser c ++ parsedLines cs := by
  simp [parsedLines]

/-- The line loop is a fold of `processLine` over the lines that reach the parser. -/
theorem processChunk_eq_foldl_linesToParser (js : Js) (f : Flight) (chunk : Str) :
    processChunk js f chunk = (linesToParser chunk).foldl (processLine js) f := by
  unfold processChunk linesToParser
  generalize split chunk = ls
  induction ls generalizing f with
  | nil => rfl
  | cons l ls ih =>
    by_cases hb : isBlank l = true
    · simp [List.filter, hb, processLine, ih]
    · simp only [Bool.not_eq_true] at hb
      simp [List.filter, hb, ih]

theorem ingest_eq_foldl_parsedLines (js : Js) (f : Flight) (chunks : List Str) :
    ingest js f chunks = (parsedLines chunks).foldl (processLine js) f := by
  induction chunks generalizing f with
  | nil => rfl
  | cons c cs ih =>
    rw [ingest_cons, ih, parsedLines_cons, List.foldl_append,
      processChunk_eq_foldl_linesToParser]

/-- On a partition with no cut inside a line, the lines that reach the parser are
those of the whole text. -/
theorem parsedLines_of_cuts (chunks : List Str) (h : CutsAtLineEnds chunks) :
    parsedLines chunks = linesToParser chunks.flatten := by
  induction chunks with
  | nil => simp [parsedLines, linesToParser_nil]
  | cons c cs ih =>
    obtain ⟨hc, hcs⟩ := h
    rw [parsedLines_cons, ih hcs, List.flatten_cons]
    rcases hc with hc | ⟨a, hc⟩ | hc | ⟨b, hc⟩
    · simp [hc, linesToParser_nil]
    · subst hc
      rw [List.append_assoc, List.singleton_append, linesToParser_append_newline,
        linesToParser_append_newline, linesToParser_nil, List.append_nil]
    · simp [hc, linesToParser_nil]
    · rw [hc, linesToParser_append_newline]
      have : linesToParser ('\n' :: b) = linesToParser b := by
        have := linesToParser_append_newline [] b
        simpa [linesToParser_nil] using this
      rw [this]

/-! ## Lemmas on the history under one flight -/

theorem setLast_append_singleton (base : List Message) (x m : Message) :
    setLast (base ++ [x]) m = base ++ [m] := by
  simp [setLast, List.set_append]

/-- The local turn after a line depends on the local turn before it, not on the state. -/
theorem processLine_cur_congr (js : Js) (f g : Flight) (l : Str) (h : f.cur = g.cur) :
    (processLine js f l).cur = (processLine js g l).cur := by
  unfold processLine
  by_cases hb : isBlank l = true
  · simp [hb, h]
  · simp only [hb, if_false]
    cases hp : js.parse l with
    | none => simp [parseCatch, h]
    | some data =>
      simp only []
      rw [h]
      cases ha : applyData js g.cur data <;> simp [parseCatch, h]

theorem foldl_processLine_cur_congr (js : Js) (ls : List Str) (f g : Flight)
    (h : f.cur = g.cur) :
    (ls.foldl (processLine js) f).cur = (ls.foldl (processLine js) g).cur := by
  induction ls generalizing f g with
  | nil => exact h
  | cons l ls ih => exact ih _ _ (processLine_cur_congr js f g l h)

theorem ingest_cur_congr (js : Js) (chunks : List Str) (f g : Flight) (h : f.cur = g.cur) :
    (ingest js f chunks).cur = (ingest js g chunks).cur := by
  rw [ingest_eq_foldl_parsedLines, ingest_eq_foldl_parsedLines]
  exact foldl_processLine_cur_congr js _ f g h

/-- The turn a flight accumulates from a fresh turn is `accumulate`, on every state. -/
theorem ingest_cur_eq_accumulate (js : Js) (s : State) (chunks : List Str) :
    (ingest js { st := s, cur := BotMessage.fresh } chunks).cur = accumulate js chunks :=
  ingest_cur_congr js chunks _ _ rfl

/-- The history and the local turn after a line depend on those before it only. -/
theorem processLine_messages_congr (js : Js) (f g : Flight) (l : Str)
    (hc : f.cur = g.cur) (hm : f.st.messages = g.st.messages) :
    (processLine js f l).st.messages = (processLine js g l).st.messages := by
  unfold processLine
  by_cases hb : isBlank l = true
  · simp [hb, hm]
  · simp only [hb, if_false]
    cases hp : js.parse l with
    | none => simp [parseCatch, hm]
    | some data =>
      simp only []
      rw [hc]
      cases ha : applyData js g.cur data <;> simp [parseCatch, hm]

theorem foldl_processLine_congr (js : Js) (ls : List Str) (f g : Flight)
    (hc : f.cur = g.cur) (hm : f.st.messages = g.st.messages) :
    (ls.foldl (processLine js) f).cur = (ls.foldl (processLine js) g).cur ∧
      (ls.foldl (processLine js) f).st.messages =
        (ls.foldl (processLine js) g).st.messages := by
  induction ls generalizing f g with
  | nil => exact ⟨hc, hm⟩
  | cons l ls ih =>
    exact ih _ _ (processLine_cur_congr js f g l hc) (processLine_messages_congr js f g l hc hm)

/-- While the history ends with the local turn, it keeps doing so, on the same base. -/
theorem processLine_history (js : Js) (f : Flight) (l : Str) (base : List Message)
    (h : f.st.messages = base ++ [.bot f.cur]) :
    (processLine js f l).st.messages = base ++ [.bot (processLine js f l).cur] := by
  unfold processLine
  by_cases hb : isBlank l = true
  · simp [hb, h]
  · simp only [hb, if_false]
    cases hp : js.parse l with
    | none => simp [parseCatch, h]
    | some data =>
      simp only []
      cases ha : applyData js f.cur data <;> simp [parseCatch, h, setLast_append_singleton]

theorem foldl_processLine_history (js : Js) (ls : List Str) (f : Flight)
    (base : List Message) (h : f.st.messages = base ++ [.bot f.cur]) :
    (ls.foldl (processLine js) f).st.messages =
      base ++ [.bot (ls.foldl (processLine js) f).cur] := by
  induction ls generalizing f with
  | nil => exact h
  | cons l ls ih => exact ih _ (processLine_history js f l base h)

theorem ingest_history (js : Js) (chunks : List Str) (f : Flight) (base : List Message)
    (h : f.st.messages = base ++ [.bot f.cur]) :
    (ingest js f chunks).st.messages = base ++ [.bot (ingest js f chunks).cur] := by
  rw [ingest_eq_foldl_parsedLines]
  exact foldl_processLine_history js _ f base h

/-- An accepted submission starts a flight on the extended history. -/
theorem handleSubmitStart_of_accept (s : State) (h : rejects s = false) :
    handleSubmitStart s =
      (some { st := { s with messages := s.messages ++ [.user s.input] ++ [.bot BotMessage.fresh],
                             input := [], isLoading := true },
              cur := BotMessage.fresh }, [.chat s.input]) := by
  simp [handleSubmitStart, h]

/-! ## C1: chunking invariance -/

/-- C1 (counterexample): scenario 2. Chunk A followed by chunk B is the text of
scenario 1, but delivered as these two chunks the loop hands other lines to the
parser than for the whole text, and the final turn has an empty `content` where
the whole text gives `Hi`. -/
theorem chunking_invariance_fails_mid_line :
    chunkA ++ chunkB = stream1 ∧
      parsedLines [chunkA, chunkB] ≠ parsedLines [stream1] ∧
      accumulate refJs [stream1] =
        { thinking := "analyzing".data, content := "Hi".data,
          executionResults := [.str "ok".data] } ∧
      accumulate refJs [chunkA, chunkB] =
        { thinking := "analyzing".data, content := [],
          executionResults := [.str "ok".data] } := by
  decide

/-- C1 (amended): for every partition of a text in which no cut falls inside a line,
the lines handed to the parser, and the whole flight after the loop, are the same as
when the text is delivered as one chunk. -/
theorem chunking_invariance_at_line_ends (js : Js) (f : Flight) (chunks : List Str)
    (h : CutsAtLineEnds chunks) :
    parsedLines chunks = parsedLines [chunks.flatten] ∧
      ingest js f chunks = ingest js f [chunks.flatten] := by
  have hl : parsedLines chunks = parsedLines [chunks.flatten] := by
    rw [parsedLines_of_cuts chunks h]; simp [parsedLines]
  refine ⟨hl, ?_⟩
  rw [ingest_eq_foldl_parsedLines, ingest_eq_foldl_parsedLines, hl]

/-- C1 (amended, witness): scenario 1 cut after its second line. -/
theorem chunking_invariance_at_line_ends_witness :
    CutsAtLineEnds [renderLines [line1, line2], renderLines [line3, line4]] ∧
      (parsedLines [renderLines [line1, line2], renderLines [line3, line4]] =
          parsedLines [[renderLines [line1, line2], renderLines [line3, line4]].flatten] ∧
        ingest refJs (Flight.start State.initial)
            [renderLines [line1, line2], renderLines [line3, line4]] =
          ingest refJs (Flight.start State.initial)
            [[renderLines [line1, line2], renderLines [line3, line4]].flatten]) :=
  have hc : CutsAtLineEnds [renderLines [line1, line2], renderLines [line3, line4]] :=
    ⟨Or.inr (Or.inl ⟨line1 ++ '\n' :: line2, by decide⟩),
      Or.inr (Or.inl ⟨line3 ++ '\n' :: line4, by decide⟩), trivial⟩
  ⟨hc, chunking_invariance_at_line_ends refJs (Flight.start State.initial) _ hc⟩

/-! ## C10: the text after the last terminator -/

/-- C10 (counterexample): the stream `unterminated3` is the first line of scenario 1
with its terminator, then the third line without one. The text after its last
terminator is that third line, and the stream truncated after the last terminator
gives an empty `content`; yet the loop hands the fragment to the parser and the
final turn has `content = Hi`. The unterminated fragment that ends chunk A of
scenario 2, a chunk that is not the last, is handed to the parser on its own as
well. -/
theorem unterminated_fragment_is_parsed :
    unterminated3 = renderLines [line1] ++ line3 ∧ '\n' ∉ line3 ∧
      parsedLines [unterminated3] = [line1, line3] ∧
      accumulate refJs [unterminated3] =
        { thinking := "ana".data, content := "Hi".data, executionResults := [] } ∧
      accumulate refJs [renderLines [line1]] =
        { thinking := "ana".data, content := [], executionResults := [] } ∧
      "\x7b\"type\":\"conte".data ∈ parsedLines [chunkA] := by
  decide

/-- C10 (amended): the text after the last terminator of every chunk, final or not,
is a line of its own: the lines handed to the parser and the flight after the loop
are those of the stream in which every chunk has a terminator appended. -/
theorem fragment_is_a_line (js : Js) (f : Flight) (chunks : List Str) :
    parsedLines chunks = parsedLines (chunks.map (fun c => c ++ ['\n'])) ∧
      ingest js f chunks = ingest js f (chunks.map (fun c => c ++ ['\n'])) := by
  have hl : parsedLines chunks = parsedLines (chunks.map (fun c => c ++ ['\n'])) := by
    induction chunks with
    | nil => rfl
    | cons c cs ih =>
      rw [List.map_cons, parsedLines_cons, parsedLines_cons, ← ih, List.append_cons,
        List.append_nil, linesToParser_append_newline, linesToParser_nil,
        List.append_nil]
  refine ⟨hl, ?_⟩
  rw [ingest_eq_foldl_parsedLines, ingest_eq_foldl_parsedLines, hl]

/-! ## C5: rejected submissions -/

/-- C5: when the input is empty or whitespace-only, or `isLoading` is set,
`handleSubmit` is a no-op: it returns at its guard, the state (history, flag and all
else) is unchanged and no request is issued, whatever the response would be. -/
theorem rejected_submit_is_noop (s : State)
    (h : isBlank s.input = true ∨ s.isLoading = true) :
    handleSubmitStart s = (none, []) ∧ stateAfterStart s = s ∧
      ∀ (js : Js) (r : Response), handleSubmit js s r = (s, []) := by
  have hr : rejects s = true := by
    rcases h with h | h <;> simp [rejects, h]
  have hs : handleSubmitStart s = (none, []) := by simp [handleSubmitStart, hr]
  refine ⟨hs, ?_, ?_⟩
  · simp [stateAfterStart, hs]
  · intro js r
    simp [handleSubmit, hs]

/-- C5 (witness): scenario 4. After the first submit the history is one user turn
and one assistant turn; a second submit, with new text typed while the first turn
is open, changes nothing, whatever the server would answer. -/
theorem rejected_submit_is_noop_witness :
    (stateAfterStart typed).isLoading = true ∧
      (stateAfterStart typed).messages = [.user "hello".data, .bot BotMessage.fresh] ∧
      handleSubmitStart { stateAfterStart typed with input := "again".data } = (none, []) ∧
      handleSubmit refJs { stateAfterStart typed with input := "again".data }
          ⟨[stream1], false⟩ =
        ({ stateAfterStart typed with input := "again".data }, []) :=
  have h := rejected_submit_is_noop { stateAfterStart typed with input := "again".data }
    (Or.inr (by decide))
  ⟨by decide, by decide, h.1, h.2.2 refJs ⟨[stream1], false⟩⟩

/-! ## C6: one poll cycle -/

/-- C6 (counterexample): scenario 5. The tasks request fails and the other two
succeed, yet `skills` and `outputs` keep their prior values and differ from the
values fetched. -/
theorem poll_failure_blocks_other_fields :
    poll5.taskRes = none ∧
      poll5.skillRes.map (fun d => getProp d "skills".data) = some newSkills ∧
      poll5.outputRes.map (fun d => getProp d "files".data) = some newOutputs ∧
      (fetchStatus prior5 poll5).skills = prior5.skills ∧
      (fetchStatus prior5 poll5).outputs = prior5.outputs ∧
      (fetchStatus prior5 poll5).skills ≠ newSkills ∧
      (fetchStatus prior5 poll5).outputs ≠ newOutputs := by
  decide

/-- C6 (amended): a poll cycle is all or nothing. If any of the three requests fails,
the three fields keep their prior values; if the three succeed with bodies on which
the property reads succeed, each field is the value fetched for it. -/
theorem poll_cycle_all_or_nothing (s : State) (p : Poll) :
    ((p.taskRes = none ∨ p.skillRes = none ∨ p.outputRes = none) →
        (fetchStatus s p).tasks = s.tasks ∧ (fetchStatus s p).skills = s.skills ∧
          (fetchStatus s p).outputs = s.outputs) ∧
      (∀ t k o tv kv ov, p.taskRes = some t → p.skillRes = some k → p.outputRes = some o →
        member t "content".data = some tv → member k "skills".data = some kv →
        member o "files".data = some ov →
        (fetchStatus s p).tasks = tv ∧ (fetchStatus s p).skills = kv ∧
          (fetchStatus s p).outputs = ov) := by
  constructor
  · intro h
    obtain ⟨t, k, o⟩ := p
    cases t <;> cases k <;> cases o <;> simp_all [fetchStatus, fetchStatusCatch]
  · intro t k o tv kv ov ht hk ho htv hkv hov
    simp [fetchStatus, ht, hk, ho, htv, hkv, hov]

/-- C6 (amended, witness): scenario 5 for the first half, a poll whose three
requests succeed for the second. -/
theorem poll_cycle_all_or_nothing_witness :
    ((fetchStatus prior5 poll5).tasks = prior5.tasks ∧
        (fetchStatus prior5 poll5).skills = prior5.skills ∧
        (fetchStatus prior5 poll5).outputs = prior5.outputs) ∧
      ((fetchStatus prior5 pollAll).tasks = .str "new tasks".data ∧
        (fetchStatus prior5 pollAll).skills = newSkills ∧
        (fetchStatus prior5 pollAll).outputs = newOutputs) :=
  ⟨(poll_cycle_all_or_nothing prior5 poll5).1 (Or.inl rfl),
    (poll_cycle_all_or_nothing prior5 pollAll).2 _ _ _ _ _ _ rfl rfl rfl rfl rfl rfl⟩

/-! ## C7: the end of the stream -/

/-- C7: for every accepted submission and every response, whether its stream fails
after its chunks or ends normally, the history left is the prior history, the user
turn and the assistant turn accumulated from exactly those chunks; the flag is
lowered, so that a later non-blank submit is accepted; and the requests issued are
the chat request and then one status refresh. -/
theorem stream_end_keeps_turn_and_releases (js : Js) (s : State) (r : Response)
    (h : rejects s = false) :
    (handleSubmit js s r).1.messages =
        s.messages ++ [.user s.input, .bot (accumulate js r.chunks)] ∧
      (handleSubmit js s r).1.isLoading = false ∧
      (handleSubmit js s r).2 = [.chat s.input, .fetchStatus] ∧
      ∀ m, isBlank m = false →
        rejects { (handleSubmit js s r).1 with input := m } = false := by
  have hh := ingest_history js r.chunks
    { st := { s with messages := s.messages ++ [.user s.input] ++ [.bot BotMessage.fresh],
                     input := [], isLoading := true },
      cur := BotMessage.fresh } (s.messages ++ [.user s.input]) rfl
  rw [ingest_cur_eq_accumulate] at hh
  simp only [List.append_assoc, List.singleton_append] at hh
  have hm : (handleSubmit js s r).1.messages =
      s.messages ++ [.user s.input, .bot (accumulate js r.chunks)] := by
    simp only [handleSubmit, handleSubmitStart_of_accept s h, handleSubmitFinally]
    cases r.fails <;> simp [chatCatch, hh]
  have hl : (handleSubmit js s r).1.isLoading = false := by
    simp [handleSubmit, handleSubmitStart_of_accept s h, handleSubmitFinally]
  refine ⟨hm, hl, ?_, ?_⟩
  · simp [handleSubmit, handleSubmitStart_of_accept s h, handleSubmitFinally]
  · intro m hb
    simp [rejects, hb, hl]

/-- C7 (witness): the submission of scenario 4 answered by the first two lines of
scenario 1 and then a failure. -/
theorem stream_end_keeps_turn_and_releases_witness :
    rejects typed = false ∧
      (handleSubmit refJs typed ⟨[renderLines [line1, line2]], true⟩).1.messages =
        [.user "hello".data,
          .bot { thinking := "analyzing".data, content := [], executionResults := [] }] ∧
      (handleSubmit refJs typed ⟨[renderLines [line1, line2]], true⟩).1.isLoading = false ∧
      (handleSubmit refJs typed ⟨[renderLines [line1, line2]], true⟩).2 =
        [.chat "hello".data, .fetchStatus] :=
  have h := stream_end_keeps_turn_and_releases refJs typed
    ⟨[renderLines [line1, line2]], true⟩ (by decide)
  ⟨by decide, h.1.trans (by decide), h.2.1, h.2.2.1⟩

/-! ## C8: the shape of the history -/

/-- C8: an accepted submission with input `m` on history `H` starts a flight whose
history is `H`, a user turn with content `m` and an empty assistant turn; after
every sequence of lines processed from there, the history is `H`, that user turn and
the current assistant turn: its length is `|H| + 2` and its first `|H| + 1` turns
are unchanged. -/
theorem history_shape (js : Js) (s : State) (f0 : Flight) (lines : List Str)
    (h : rejects s = false) (hs : (handleSubmitStart s).1 = some f0) :
    f0.st.messages =
        s.messages ++
          [.user s.input, .bot { thinking := [], content := [], executionResults := [] }] ∧
      (lines.foldl (processLine js) f0).st.messages =
        s.messages ++ [.user s.input, .bot (lines.foldl (processLine js) f0).cur] ∧
      (lines.foldl (processLine js) f0).st.messages.length = s.messages.length + 2 ∧
      (lines.foldl (processLine js) f0).st.messages.take (s.messages.length + 1) =
        s.messages ++ [.user s.input] := by
  rw [handleSubmitStart_of_accept s h] at hs
  have hf := (Option.some.inj hs).symm
  subst hf
  refine ⟨by simp [BotMessage.fresh], ?_⟩
  have hh := foldl_processLine_history js lines
    { st := { s with messages := s.messages ++ [.user s.input] ++ [.bot BotMessage.fresh],
                     input := [], isLoading := true },
      cur := BotMessage.fresh } (s.messages ++ [.user s.input]) rfl
  rw [hh]
  refine ⟨by simp, by simp, ?_⟩
  have : s.messages.length + 1 = (s.messages ++ [Message.user s.input]).length := by simp
  rw [this, List.take_left]

/-- C8 (witness): the submission of scenario 4 followed by the first and third
lines of scenario 1. -/
theorem history_shape_witness :
    rejects typed = false ∧ (handleSubmitStart typed).1 = some typedFlight ∧
      ([line1, line3].foldl (processLine refJs) typedFlight).cur =
        { thinking := "ana".data, content := "Hi".data, executionResults := [] } ∧
      (typedFlight.st.messages =
          typed.messages ++
            [.user typed.input,
              .bot { thinking := [], content := [], executionResults := [] }] ∧
        ([line1, line3].foldl (processLine refJs) typedFlight).st.messages =
          typed.messages ++
            [.user typed.input,
              .bot ([line1, line3].foldl (processLine refJs) typedFlight).cur] ∧
        ([line1, line3].foldl (processLine refJs) typedFlight).st.messages.length =
          typed.messages.length + 2 ∧
        ([line1, line3].foldl (processLine refJs) typedFlight).st.messages.take
            (typed.messages.length + 1) =
          typed.messages ++ [.user typed.input]) :=
  ⟨by decide, by decide, by decide,
    history_shape refJs typed typedFlight [line1, line3] (by decide) (by decide)⟩

/-! ## C9: records of another structure -/

/-- The three branches leave the turn as it is when the `type` read is none of the
three strings. -/
theorem applyData_of_unrecognized (js : Js) (cur : BotMessage) (v ty : JVal)
    (hm : member v "type".data = some ty)
    (h1 : strictEqStr ty "thinking".data = false)
    (h2 : strictEqStr ty "content".data = false)
    (h3 : strictEqStr ty "execution_result".data = false) :
    applyData js cur v = some cur := by
  simp [applyData, hm, h1, h2, h3]

/-- C9 (counterexample): a line that parses, has type `thinking` and no `delta`,
appends the text `undefined` to `thinking`; a line that parses, has type
`execution_result` and no `content`, appends the value `undefined` to
`executionResults`. -/
theorem missing_field_changes_turn :
    refJs.parse thinkingNoDelta =
        some (.obj (.cons "type".data (.str "thinking".data) .nil)) ∧
      (processLine refJs (Flight.start State.initial) thinkingNoDelta).cur =
        { thinking := "undefined".data, content := [], executionResults := [] } ∧
      refJs.parse resultNoContent =
        some (.obj (.cons "type".data (.str "execution_result".data) .nil)) ∧
      (processLine refJs (Flight.start State.initial) resultNoContent).cur =
        { thinking := [], content := [], executionResults := [.undefined] } ∧
      (Flight.start State.initial).cur =
        { thinking := [], content := [], executionResults := [] } := by
  decide

/-- C9 (amended): a line that parses as JSON to a value whose `type` is none of
`thinking`, `content` and `execution_result` (another value, or none at all) leaves
`thinking`, `content` and `executionResults` as they were, and leaves a history that
ends with the current turn as it was. -/
theorem unrecognized_type_changes_nothing (js : Js) (f : Flight) (l : Str) (v : JVal)
    (hp : js.parse l = some v)
    (ht : ∀ ty, member v "type".data = some ty →
      strictEqStr ty "thinking".data = false ∧ strictEqStr ty "content".data = false ∧
        strictEqStr ty "execution_result".data = false) :
    (processLine js f l).cur = f.cur ∧
      ∀ base, f.st.messages = base ++ [.bot f.cur] →
        (processLine js f l).st.messages = f.st.messages := by
  have hc : (processLine js f l).cur = f.cur := by
    unfold processLine
    by_cases hb : isBlank l = true
    · simp [hb]
    · simp only [hb, if_false, hp]
      cases hm : member v "type".data with
      | none => simp [applyData, hm, parseCatch]
      | some ty =>
        obtain ⟨h1, h2, h3⟩ := ht ty hm
        simp [applyData_of_unrecognized js f.cur v ty hm h1 h2 h3]
  refine ⟨hc, ?_⟩
  intro base hb
  rw [processLine_history js f l base hb, hc, hb]

/-- C9 (amended, witness): a line of type `ping`. -/
theorem unrecognized_type_changes_nothing_witness :
    refJs.parse pingLine =
        some (.obj (.cons "type".data (.str "ping".data)
          (.cons "delta".data (.str "x".data) .nil))) ∧
      (processLine refJs (Flight.start State.initial) pingLine).cur =
        (Flight.start State.initial).cur :=
  ⟨by decide,
    (unrecognized_type_changes_nothing refJs (Flight.start State.initial) pingLine
      (.obj (.cons "type".data (.str "ping".data) (.cons "delta".data (.str "x".data) .nil)))
      (by decide)
      (by
        intro ty hty
        have : ty = .str "ping".data := by
          have h2 : member (JVal.obj (.cons "type".data (.str "ping".data)
              (.cons "delta".data (.str "x".data) .nil))) "type".data =
              some (.str "ping".data) := by decide
          rw [h2] at hty
          exact (Option.some.inj hty).symm
        subst this
        decide)).1⟩

/-! ## C2, C3: the two laws of accumulation -/

theorem renderLines_cons (l : Str) (ls : List Str) :
    renderLines (l :: ls) = l ++ '\n' :: renderLines ls := by
  simp [renderLines]

/-- A chunk of whole lines is processed line by line. -/
theorem processChunk_renderLines (js : Js) (ls : List Str) (f : Flight)
    (h : ∀ l ∈ ls, '\n' ∉ l) :
    processChunk js f (renderLines ls) = ls.foldl (processLine js) f := by
  induction ls generalizing f with
  | nil => exact processChunk_nil js f
  | cons l ls ih =>
    have hl : '\n' ∉ l := h l (List.mem_cons_self _ _)
    have hls : ∀ x ∈ ls, '\n' ∉ x := fun x hx => h x (List.mem_cons_of_mem _ hx)
    rw [renderLines_cons, processChunk_append_newline, ih _ hls]
    simp [processChunk, split_of_not_mem l hl]

/-- A stream of chunks of whole lines is processed line by line. -/
theorem ingest_renderLines (js : Js) (groups : List (List Str)) (f : Flight)
    (h : ∀ g ∈ groups, ∀ l ∈ g, '\n' ∉ l) :
    ingest js f (groups.map renderLines) = groups.flatten.foldl (processLine js) f := by
  induction groups generalizing f with
  | nil => rfl
  | cons g gs ih =>
    have hg := h g (List.mem_cons_self _ _)
    have hgs : ∀ x ∈ gs, ∀ l ∈ x, '\n' ∉ l := fun x hx => h x (List.mem_cons_of_mem _ hx)
    rw [List.map_cons, ingest_cons, processChunk_renderLines js g f hg, ih _ hgs,
      List.flatten_cons, List.foldl_append]

/-- The three branches do to the turn what the event of the value says. -/
theorem applyData_of_encodes (js : Js) (cur : BotMessage) (v : JVal) (e : Event)
    (h : Encodes v e) : applyData js cur v = some (applyEvent cur e) := by
  cases e with
  | thinking d =>
    obtain ⟨ht, hd⟩ := h
    simp [applyData, ht, hd, strictEqStr, toStr, applyEvent]
  | content d =>
    obtain ⟨ht, hd⟩ := h
    have hne : ("content".data == "thinking".data) = false := by decide
    simp [applyData, ht, hd, strictEqStr, toStr, applyEvent, hne]
  | executionResult x =>
    obtain ⟨ht, hd⟩ := h
    have h1 : ("execution_result".data == "thinking".data) = false := by decide
    have h2 : ("execution_result".data == "content".data) = false := by decide
    simp [applyData, ht, hd, strictEqStr, applyEvent, h1, h2]

theorem processLine_of_wellFormed (js : Js) (f : Flight) (l : Str) (e : Event)
    (h : WellFormed js l e) : (processLine js f l).cur = applyEvent f.cur e := by
  obtain ⟨_, hb, v, hp, he⟩ := h
  simp [processLine, hb, hp, applyData_of_encodes js f.cur v e he]

theorem foldl_processLine_of_wellFormed (js : Js) (ps : List (Str × Event)) (f : Flight)
    (h : ∀ p ∈ ps, WellFormed js p.1 p.2) :
    ((ps.map Prod.fst).foldl (processLine js) f).cur =
      (ps.map Prod.snd).foldl applyEvent f.cur := by
  induction ps generalizing f with
  | nil => rfl
  | cons p ps ih =>
    have hp := h p (List.mem_cons_self _ _)
    have hps : ∀ q ∈ ps, WellFormed js q.1 q.2 := fun q hq => h q (List.mem_cons_of_mem _ hq)
    simp only [List.map_cons, List.foldl_cons]
    rw [ih _ hps, processLine_of_wellFormed js f p.1 p.2 hp]

/-- The three channels after a sequence of events. -/
theorem foldl_applyEvent (es : List Event) (cur : BotMessage) :
    (es.foldl applyEvent cur).thinking = cur.thinking ++ (thinkingDeltas es).flatten ∧
      (es.foldl applyEvent cur).content = cur.content ++ (contentDeltas es).flatten ∧
      (es.foldl applyEvent cur).executionResults =
        cur.executionResults ++ (executionValues es).map JVal.str := by
  induction es generalizing cur with
  | nil => simp [thinkingDeltas, contentDeltas, executionValues]
  | cons e es ih =>
    obtain ⟨h1, h2, h3⟩ := ih (applyEvent cur e)
    simp only [List.foldl_cons]
    rw [h1, h2, h3]
    cases e <;> simp [applyEvent, thinkingDeltas, contentDeltas, executionValues]

/-- The turn that a stream of chunks of whole well-formed lines accumulates. -/
theorem ingest_of_wellFormed (js : Js) (s : State) (groups : List (List (Str × Event)))
    (h : ∀ g ∈ groups, ∀ p ∈ g, WellFormed js p.1 p.2) :
    (ingest js (Flight.start s) (groups.map (fun g => renderLines (g.map Prod.fst)))).cur =
      (groups.flatten.map Prod.snd).foldl applyEvent BotMessage.fresh := by
  have hn : ∀ g ∈ groups.map (fun g => g.map Prod.fst), ∀ l ∈ g, '\n' ∉ l := by
    intro g hg l hl
    obtain ⟨g0, hg0, rfl⟩ := List.mem_map.1 hg
    obtain ⟨p, hp, rfl⟩ := List.mem_map.1 hl
    exact (h g0 hg0 p hp).1
  have hmap : groups.map (fun g => renderLines (g.map Prod.fst)) =
      (groups.map (fun g => g.map Prod.fst)).map renderLines := by
    simp [List.map_map, Function.comp_def]
  have hfl : ∀ gs : List (List (Str × Event)),
      (gs.map (fun g => g.map Prod.fst)).flatten = gs.flatten.map Prod.fst := by
    intro gs
    induction gs with
    | nil => rfl
    | cons g gs ih => simp only [List.map_cons, List.flatten_cons, List.map_append, ih]
  rw [hmap, ingest_renderLines js _ _ hn, hfl groups]
  refine foldl_processLine_of_wellFormed js _ (Flight.start s) ?_
  intro p hp
  obtain ⟨g, hg, hpg⟩ := List.mem_flatten.1 hp
  exact h g hg p hpg

/-- C2: for every stream of well-formed event lines, each delivered whole, applied
to a fresh assistant turn, the final `thinking` is the concatenation, in arrival
order, of the deltas of the `thinking` events, and the final `content` that of the
deltas of the `content` events, however the kinds interleave. -/
theorem concatenation_law (js : Js) (s : State) (groups : List (List (Str × Event)))
    (h : ∀ g ∈ groups, ∀ p ∈ g, WellFormed js p.1 p.2) :
    (ingest js (Flight.start s)
        (groups.map (fun g => renderLines (g.map Prod.fst)))).cur.thinking =
        (thinkingDeltas (groups.flatten.map Prod.snd)).flatten ∧
      (ingest js (Flight.start s)
        (groups.map (fun g => renderLines (g.map Prod.fst)))).cur.content =
        (contentDeltas (groups.flatten.map Prod.snd)).flatten := by
  rw [ingest_of_wellFormed js s groups h]
  obtain ⟨h1, h2, _⟩ := foldl_applyEvent (groups.flatten.map Prod.snd) BotMessage.fresh
  exact ⟨by simpa [BotMessage.fresh] using h1, by simpa [BotMessage.fresh] using h2⟩

/-- C3: for every stream of well-formed event lines, each delivered whole, applied
to a fresh assistant turn, the final `executionResults` is the list of the values of
the `execution_result` events in arrival order, one element for each. -/
theorem execution_order_law (js : Js) (s : State) (groups : List (List (Str × Event)))
    (h : ∀ g ∈ groups, ∀ p ∈ g, WellFormed js p.1 p.2) :
    (ingest js (Flight.start s)
        (groups.map (fun g => renderLines (g.map Prod.fst)))).cur.executionResults =
        (executionValues (groups.flatten.map Prod.snd)).map JVal.str ∧
      (ingest js (Flight.start s)
        (groups.map (fun g => renderLines (g.map Prod.fst)))).cur.executionResults.length =
        (executionValues (groups.flatten.map Prod.snd)).length := by
  rw [ingest_of_wellFormed js s groups h]
  obtain ⟨_, _, h3⟩ := foldl_applyEvent (groups.flatten.map Prod.snd) BotMessage.fresh
  have h4 : ((groups.flatten.map Prod.snd).foldl applyEvent BotMessage.fresh).executionResults =
      (executionValues (groups.flatten.map Prod.snd)).map JVal.str := by
    simpa [BotMessage.fresh] using h3
  exact ⟨h4, by rw [h4, List.length_map]⟩

/-- The lines of scenario 1 are well-formed event lines for the reference parser. -/
theorem scenario1_wellFormed :
    ∀ g ∈ scenario1, ∀ p ∈ g, WellFormed refJs p.1 p.2 := by
  have w1 : WellFormed refJs line1 (.thinking "ana".data) :=
    ⟨by decide, by decide, _, rfl, by decide, by decide⟩
  have w2 : WellFormed refJs line2 (.thinking "lyzing".data) :=
    ⟨by decide, by decide, _, rfl, by decide, by decide⟩
  have w3 : WellFormed refJs line3 (.content "Hi".data) :=
    ⟨by decide, by decide, _, rfl, by decide, by decide⟩
  have w4 : WellFormed refJs line4 (.executionResult "ok".data) :=
    ⟨by decide, by decide, _, rfl, by decide, by decide⟩
  intro g hg p hp
  simp only [scenario1, List.mem_cons, List.mem_singleton, List.not_mem_nil, or_false] at hg
  rcases hg with rfl | rfl
  · simp only [List.mem_cons, List.mem_singleton, List.not_mem_nil, or_false] at hp
    rcases hp with rfl | rfl
    · exact w1
    · exact w2
  · simp only [List.mem_cons, List.mem_singleton, List.not_mem_nil, or_false] at hp
    rcases hp with rfl | rfl
    · exact w3
    · exact w4

/-- C2 (witness): scenario 1 gives `thinking = analyzing` and `content = Hi`. -/
theorem concatenation_law_witness :
    (ingest refJs (Flight.start State.initial)
        (scenario1.map (fun g => renderLines (g.map Prod.fst)))).cur.thinking =
        "analyzing".data ∧
      (ingest refJs (Flight.start State.initial)
        (scenario1.map (fun g => renderLines (g.map Prod.fst)))).cur.content = "Hi".data :=
  have h := concatenation_law refJs State.initial scenario1 scenario1_wellFormed
  ⟨h.1.trans (by decide), h.2.trans (by decide)⟩

/-- C3 (witness): scenario 1 gives `executionResults = [ok]`, of length one. -/
theorem execution_order_law_witness :
    (ingest refJs (Flight.start State.initial)
        (scenario1.map (fun g => renderLines (g.map Prod.fst)))).cur.executionResults =
        [.str "ok".data] ∧
      (ingest refJs (Flight.start State.initial)
        (scenario1.map (fun g => renderLines (g.map Prod.fst)))).cur.executionResults.length =
        1 :=
  have h := execution_order_law refJs State.initial scenario1 scenario1_wellFormed
  ⟨h.1.trans (by decide), h.2.trans (by decide)⟩

/-! ## C4: fault isolation -/

/-- A line that does not parse leaves the turn and the history as they were. -/
theorem processLine_of_parse_none (js : Js) (f : Flight) (l : Str)
    (hp : js.parse l = none) :
    (processLine js f l).cur = f.cur ∧ (processLine js f l).st.messages = f.st.messages := by
  unfold processLine
  by_cases hb : isBlank l = true
  · simp [hb]
  · simp [hb, hp, parseCatch]

theorem processChunk_congr (js : Js) (chunk : Str) (f g : Flight)
    (hc : f.cur = g.cur) (hm : f.st.messages = g.st.messages) :
    (processChunk js f chunk).cur = (processChunk js g chunk).cur ∧
      (processChunk js f chunk).st.messages = (processChunk js g chunk).st.messages :=
  foldl_processLine_congr js (split chunk) f g hc hm

theorem ingest_congr (js : Js) (chunks : List Str) (f g : Flight)
    (hc : f.cur = g.cur) (hm : f.st.messages = g.st.messages) :
    (ingest js f chunks).cur = (ingest js g chunks).cur ∧
      (ingest js f chunks).st.messages = (ingest js g chunks).st.messages := by
  rw [ingest_eq_foldl_parsedLines, ingest_eq_foldl_parsedLines]
  exact foldl_processLine_congr js _ f g hc hm

/-- A line that does not parse, followed by its terminator and more text, is
processed as the text after it. -/
theorem processChunk_skip_line (js : Js) (f : Flight) (l b : Str)
    (hl : '\n' ∉ l) (hp : js.parse l = none) :
    (processChunk js f (l ++ '\n' :: b)).cur = (processChunk js f b).cur ∧
      (processChunk js f (l ++ '\n' :: b)).st.messages =
        (processChunk js f b).st.messages := by
  rw [processChunk_append_newline]
  have h1 : processChunk js f l = processLine js f l := by
    simp [processChunk, split_of_not_mem l hl]
  rw [h1]
  obtain ⟨hc, hm⟩ := processLine_of_parse_none js f l hp
  exact processChunk_congr js b _ _ hc hm

/-- C4 (counterexample): the stream whose only line is `twoObjects`, which is not
JSON, delivered as two reads that cut the line between its two objects. Each read
holds a piece that parses, so the loop writes `content = xy`; the same stream with
the line removed is empty and gives the fresh turn, as does the line delivered in
one read. -/
theorem fault_isolation_fails_across_reads :
    '\n' ∉ twoObjects ∧ refJs.parse twoObjects = none ∧
      [contentX, contentY ++ ['\n']].flatten = twoObjects ++ ['\n'] ∧
      accumulate refJs [contentX, contentY ++ ['\n']] =
        { thinking := [], content := "xy".data, executionResults := [] } ∧
      accumulate refJs [twoObjects ++ ['\n']] = BotMessage.fresh ∧
      accumulate refJs [[], []] = BotMessage.fresh ∧
      accumulate refJs [] = BotMessage.fresh := by
  decide

/-- C4 (amended): for every stream and every line that lies whole inside one chunk
(it starts the chunk or follows a terminator there, and its terminator is in the
same chunk) and does not parse as JSON, the final assistant turn and the final
history are those of the same stream with that line removed: the lines after it
are processed as before. -/
theorem fault_isolation (js : Js) (f : Flight) (pre post : List Str) (a l b : Str)
    (ha : a = [] ∨ ∃ a0, a = a0 ++ ['\n']) (hl : '\n' ∉ l) (hp : js.parse l = none) :
    (ingest js f (pre ++ (a ++ l ++ '\n' :: b) :: post)).cur =
        (ingest js f (pre ++ (a ++ b) :: post)).cur ∧
      (ingest js f (pre ++ (a ++ l ++ '\n' :: b) :: post)).st.messages =
        (ingest js f (pre ++ (a ++ b) :: post)).st.messages := by
  rw [ingest_append, ingest_append, ingest_cons, ingest_cons]
  have key : (processChunk js (ingest js f pre) (a ++ l ++ '\n' :: b)).cur =
        (processChunk js (ingest js f pre) (a ++ b)).cur ∧
      (processChunk js (ingest js f pre) (a ++ l ++ '\n' :: b)).st.messages =
        (processChunk js (ingest js f pre) (a ++ b)).st.messages := by
    rcases ha with rfl | ⟨a0, rfl⟩
    · simpa using processChunk_skip_line js (ingest js f pre) l b hl hp
    · have e1 : a0 ++ ['\n'] ++ l ++ '\n' :: b = a0 ++ '\n' :: (l ++ '\n' :: b) := by simp
      have e2 : a0 ++ ['\n'] ++ b = a0 ++ '\n' :: b := by simp
      rw [e1, e2, processChunk_append_newline js _ a0 (l ++ '\n' :: b),
        processChunk_append_newline js _ a0 b]
      exact processChunk_skip_line js _ l b hl hp
  exact ingest_congr js post _ _ key.1 key.2

/-- C4 (amended, witness): scenario 3. The stream with the line that is not JSON gives the
turn of the stream without it: `content` from the valid line and one execution
result. -/
theorem fault_isolation_witness :
    renderLines [line3] ++ badLine ++ '\n' :: renderLines [line4] = stream3 ∧
      refJs.parse badLine = none ∧
      (ingest refJs (Flight.start State.initial) [stream3]).cur =
        { thinking := [], content := "Hi".data, executionResults := [.str "ok".data] } ∧
      ((ingest refJs (Flight.start State.initial)
            ([] ++ (renderLines [line3] ++ badLine ++ '\n' :: renderLines [line4]) :: [])).cur =
          (ingest refJs (Flight.start State.initial)
            ([] ++ (renderLines [line3] ++ renderLines [line4]) :: [])).cur ∧
        (ingest refJs (Flight.start State.initial)
            ([] ++ (renderLines [line3] ++ badLine ++ '\n' :: renderLines [line4]) ::
              [])).st.messages =
          (ingest refJs (Flight.start State.initial)
            ([] ++ (renderLines [line3] ++ renderLines [line4]) :: [])).st.messages) :=
  ⟨by decide, by decide, by decide,
    fault_isolation refJs (Flight.start State.initial) [] [] (renderLines [line3]) badLine
      (renderLines [line4]) (Or.inr ⟨line3, by decide⟩) (by decide) (by decide)⟩

end Alice
